import Mathlib

set_option linter.unusedVariables false

/-
Verification of the core pure functions of the `genai-explorations` notebook
`exploring_gemini_25_tts.ipynb`:

  * `cost_estimator`        — cost estimate from text length and word count
  * `split_text_to_chunks`  — fixed-width character chunker
  * `save_mp3_file`         — PCM buffer assembly before MP3 export

Texts are embedded as `List Char`, Python floats as `ℚ` (the formulas involve
only exact decimal constants), and byte buffers as `List (Fin 256)`.
-/

/-- Python's notion of ASCII whitespace, as used by `str.rstrip()` and
`str.split()` with no arguments: space, tab, newline, carriage return,
vertical tab, form feed. -/
def pyIsSpace (c : Char) : Bool :=
  c = ' ' || c = '\t' || c = '\n' || c = '\r' || c = '\x0b' || c = '\x0c'

/-- Python `s.rstrip()`: remove trailing whitespace. -/
def rstrip (s : List Char) : List Char :=
  (s.reverse.dropWhile pyIsSpace).reverse

/-- Accumulator-based splitter behind `pySplit`; `cur` holds the current
in-progress word, reversed. -/
def splitWsAux (cur : List Char) : List Char → List (List Char)
  | [] => if cur = [] then [] else [cur.reverse]
  | c :: cs =>
      if pyIsSpace c then
        if cur = [] then splitWsAux [] cs
        else cur.reverse :: splitWsAux [] cs
      else splitWsAux (c :: cur) cs

/-- Python `s.split()` with no arguments: the maximal runs of
non-whitespace characters, in order. -/
def pySplit (s : List Char) : List (List Char) :=
  splitWsAux [] s

/-- Whitespace-normalization of a text: its whitespace-delimited words
joined by single spaces (leading/trailing whitespace dropped, runs
collapsed). -/
def normalizeWs (s : List Char) : List Char :=
  List.intercalate [' '] (pySplit s)

/-- Result record of `cost_estimator`: the dict
`{"input": ..., "output": ..., "total": ...}`. -/
structure CostEstimate where
  input : ℚ
  output : ℚ
  total : ℚ
  deriving DecidableEq, Repr

/-- Average number of characters per input token. -/
def INPUT_TOKEN_CHARS : ℚ := 4
/-- USD per 1M input tokens. -/
def INPUT_COST_PER_MILLION : ℚ := 0.5
/-- Output tokens per second of audio. -/
def OUTPUT_TOKENS_PER_SECOND : ℚ := 32
/-- Average spoken words per second. -/
def WORDS_PER_SECOND : ℚ := 2
/-- USD per 1M output tokens. -/
def OUTPUT_COST_PER_MILLION : ℚ := 10

/-- `cost_estimator` from the notebook: estimate input, output and total
cost of converting `text` to speech. -/
def cost_estimator (text : List Char) : CostEstimate :=
  let num_chars : ℚ := text.length
  let num_input_tokens : ℚ := num_chars / INPUT_TOKEN_CHARS
  let input_cost : ℚ := (num_input_tokens / 1000000) * INPUT_COST_PER_MILLION
  let num_words : ℚ := (pySplit text).length
  let audio_seconds : ℚ := num_words / WORDS_PER_SECOND
  let num_output_tokens : ℚ := audio_seconds * OUTPUT_TOKENS_PER_SECOND
  let output_cost : ℚ := (num_output_tokens / 1000000) * OUTPUT_COST_PER_MILLION
  ⟨input_cost, output_cost, input_cost + output_cost⟩

theorem cost_input_eq (t : List Char) :
    (cost_estimator t).input = (t.length : ℚ) * (1 / 8000000) := by
  simp only [cost_estimator, INPUT_TOKEN_CHARS, INPUT_COST_PER_MILLION]
  norm_num
  ring

theorem cost_output_eq (t : List Char) :
    (cost_estimator t).output = ((pySplit t).length : ℚ) * (1 / 6250) := by
  simp only [cost_estimator, WORDS_PER_SECOND, OUTPUT_TOKENS_PER_SECOND,
    OUTPUT_COST_PER_MILLION]
  norm_num
  ring

theorem cost_total_eq (t : List Char) :
    (cost_estimator t).total = (cost_estimator t).input + (cost_estimator t).output := by
  simp only [cost_estimator]

/-- The loop body of `split_text_to_chunks`, recursing on the unprocessed
suffix of the text: the slice `text[start:end]` is `take maxChars` of the
suffix, and advancing `start = end` is `drop maxChars`.  The Python loop
does not terminate when `max_chars = 0` and the text is non-empty; this
total embedding returns `[]` in that unreachable-by-the-claims case (see
`chunksFuel` for the faithful partial model). -/
def chunksAux : Nat → List Char → List (List Char)
  | _, [] => []
  | 0, _ :: _ => []
  | m + 1, c :: cs =>
      (rstrip ((c :: cs).take (m + 1)) ++ ['\n', '\n'])
        :: chunksAux (m + 1) ((c :: cs).drop (m + 1))
  termination_by _ t => t.length
  decreasing_by
    simp only [List.length_drop, List.length_cons]
    omega

/-- `split_text_to_chunks` from the notebook: split the text into slices of
at most `max_tokens * token_chars` characters, each with trailing
whitespace stripped and two newline characters appended. -/
def split_text_to_chunks (text : List Char) (max_tokens : Nat) (token_chars : Nat) :
    List (List Char) :=
  chunksAux (max_tokens * token_chars) text

theorem chunksAux_nil (m : Nat) : chunksAux m [] = [] := by
  cases m <;> simp [chunksAux]

theorem chunksAux_cons (m : Nat) (hm : m ≠ 0) (c : Char) (cs : List Char) :
    chunksAux m (c :: cs) =
      (rstrip ((c :: cs).take m) ++ ['\n', '\n'])
        :: chunksAux m ((c :: cs).drop m) := by
  cases m with
  | zero => exact absurd rfl hm
  | succ k => simp [chunksAux]

/-- Fuel-indexed model of the `while start < len(text)` loop: `none` means
the loop has not finished within `fuel` iterations. -/
def chunksFuel : Nat → Nat → List Char → Option (List (List Char))
  | _, _, [] => some []
  | 0, _, _ :: _ => none
  | f + 1, m, c :: cs =>
      (chunksFuel f m ((c :: cs).drop m)).map
        (fun rest => (rstrip ((c :: cs).take m) ++ ['\n', '\n']) :: rest)

/-- A byte, as found in a Python `bytes` value. -/
abbrev Byte : Type := Fin 256

/-- The `pcm` argument of `save_mp3_file`: Python `Union[List[bytes], bytes]`. -/
inductive PcmArg where
  | single : List Byte → PcmArg
  | parts : List (List Byte) → PcmArg

/-- The `if isinstance(pcm, list): pcm = b"".join(pcm)` step: the raw PCM
data that `save_mp3_file` assembles from its argument. -/
def assemblePcm : PcmArg → List Byte
  | .single b => b
  | .parts bs => bs.flatten

/-- The arguments `save_mp3_file` passes to the `AudioSegment` constructor. -/
structure AudioSegmentArgs where
  data : List Byte
  sample_width : Nat
  frame_rate : Nat
  channels : Nat
  deriving DecidableEq

/-- The observable effect of `save_mp3_file`: which audio segment it builds
and which file it exports it to, in which format. -/
structure Mp3Export where
  filename : List Char
  segment : AudioSegmentArgs
  format : List Char
  deriving DecidableEq

/-- `save_mp3_file` from the notebook, modelled as the export call it
performs (the defaults are `channels = 1`, `rate = 24000`,
`sample_width = 2`). -/
def save_mp3_file (filename : List Char) (pcm : PcmArg)
    (channels : Nat) (rate : Nat) (sample_width : Nat) : Mp3Export :=
  ⟨filename, ⟨assemblePcm pcm, sample_width, rate, channels⟩, ['m', 'p', '3']⟩

/-- A text with all of its whitespace characters removed. -/
def stripAllWs (s : List Char) : List Char :=
  s.filter (fun c => !pyIsSpace c)

theorem length_dropWhile_le (p : Char → Bool) (l : List Char) :
    (l.dropWhile p).length ≤ l.length := by
  induction l with
  | nil => simp
  | cons c cs ih =>
    rw [List.dropWhile_cons]
    by_cases h : p c <;> simp [h] ; omega

theorem rstrip_length_le (s : List Char) : (rstrip s).length ≤ s.length := by
  have h := length_dropWhile_le pyIsSpace s.reverse
  simpa [rstrip] using h

theorem filter_not_space_dropWhile (l : List Char) :
    (l.dropWhile pyIsSpace).filter (fun c => !pyIsSpace c)
      = l.filter (fun c => !pyIsSpace c) := by
  induction l with
  | nil => simp
  | cons c cs ih =>
    rw [List.dropWhile_cons]
    by_cases h : pyIsSpace c <;> simp [h, ih]

theorem stripAllWs_rstrip (s : List Char) : stripAllWs (rstrip s) = stripAllWs s := by
  simp only [stripAllWs, rstrip, List.filter_reverse, filter_not_space_dropWhile]
  simp [List.filter_reverse]

theorem stripAllWs_append (s t : List Char) :
    stripAllWs (s ++ t) = stripAllWs s ++ stripAllWs t :=
  List.filter_append s t

theorem stripAllWs_marker : stripAllWs ['\n', '\n'] = [] := by
  decide

/-- Every chunk is a whitespace-stripped slice of at most `m` characters
followed by the two-newline marker. -/
theorem chunksAux_mem (m : Nat) (t : List Char) :
    ∀ c ∈ chunksAux m t, ∃ w, c = w ++ ['\n', '\n'] ∧ w.length ≤ m := by
  induction m, t using chunksAux.induct with
  | case1 m => simp [chunksAux_nil]
  | case2 c cs => simp [chunksAux]
  | case3 m c cs ih =>
    intro x hx
    rw [chunksAux_cons (m + 1) (Nat.succ_ne_zero m)] at hx
    rcases List.mem_cons.mp hx with h | h
    · refine ⟨rstrip ((c :: cs).take (m + 1)), h, ?_⟩
      refine le_trans (rstrip_length_le _) ?_
      rw [List.length_take]
      omega
    · exact ih x h

/-- Flattening the chunks and removing whitespace recovers the original
text without its whitespace, as long as the character budget is positive. -/
theorem chunksAux_flatten_strip (m : Nat) (hm : m ≠ 0) (t : List Char) :
    stripAllWs (chunksAux m t).flatten = stripAllWs t := by
  induction m, t using chunksAux.induct with
  | case1 m => simp [chunksAux_nil]
  | case2 c cs => exact absurd rfl hm
  | case3 m c cs ih =>
    rw [chunksAux_cons (m + 1) (Nat.succ_ne_zero m), List.flatten_cons,
      stripAllWs_append, stripAllWs_append, stripAllWs_marker, List.append_nil,
      stripAllWs_rstrip, ih (Nat.succ_ne_zero m), ← stripAllWs_append,
      List.take_append_drop]

/-- With a positive character budget, the loop finishes within `length`
iterations: each iteration consumes at least one character. -/
theorem chunksFuel_complete (f m : Nat) (t : List Char) (hm : 1 ≤ m)
    (hf : t.length ≤ f) : chunksFuel f m t = some (chunksAux m t) := by
  induction f generalizing t with
  | zero =>
    have ht : t = [] := List.length_eq_zero.mp (Nat.le_zero.mp hf)
    subst ht
    simp [chunksFuel, chunksAux_nil]
  | succ f ih =>
    cases t with
    | nil => simp [chunksFuel, chunksAux_nil]
    | cons c cs =>
      have hdrop : ((c :: cs).drop m).length ≤ f := by
        rw [List.length_drop]
        simp only [List.length_cons] at hf ⊢
        omega
      rw [chunksFuel, ih ((c :: cs).drop m) hdrop, Option.map_some',
        chunksAux_cons m (by omega) c cs]

/-- With a zero character budget and a non-empty text, the loop never
finishes, whatever the fuel: `start` is never advanced. -/
theorem chunksFuel_zero_stuck (f : Nat) (c : Char) (cs : List Char) :
    chunksFuel f 0 (c :: cs) = none := by
  induction f with
  | zero => rfl
  | succ f ih => rw [chunksFuel, List.drop_zero, ih, Option.map_none']

theorem split_ab_eval :
    split_text_to_chunks ['a', 'b'] 1 1 = [['a', '\n', '\n'], ['b', '\n', '\n']] := by
  have h := chunksFuel_complete 2 1 ['a', 'b'] (by decide) (by decide)
  have h2 : chunksFuel 2 1 ['a', 'b'] = some [['a', '\n', '\n'], ['b', '\n', '\n']] := by
    decide
  rw [h] at h2
  exact Option.some.inj h2

theorem split_a_eval :
    split_text_to_chunks ['a'] 1 1 = [['a', '\n', '\n']] := by
  have h := chunksFuel_complete 1 1 ['a'] (by decide) (by decide)
  have h2 : chunksFuel 1 1 ['a'] = some [['a', '\n', '\n']] := by decide
  rw [h] at h2
  exact Option.some.inj h2

theorem dropWhile_space_replicate_a (n : Nat) :
    List.dropWhile pyIsSpace (List.replicate n 'a') = List.replicate n 'a' := by
  cases n with
  | zero => rfl
  | succ k =>
    rw [List.replicate_succ, List.dropWhile_cons]
    simp [pyIsSpace]

theorem rstrip_replicate_a (n : Nat) :
    rstrip (List.replicate n 'a') = List.replicate n 'a' := by
  rw [rstrip, List.reverse_replicate, dropWhile_space_replicate_a,
    List.reverse_replicate]

/-- The input text of the spec's worked example, `"hello world"`. -/
def hello_world : List Char := ['h', 'e', 'l', 'l', 'o', ' ', 'w', 'o', 'r', 'l', 'd']

/-- C1 counterexample: with `max_tokens = 1` and `token_chars = 1`, chunking
the text `"ab"` yields `"a\n\n"` and `"b\n\n"`, whose in-order concatenation
whitespace-normalizes to `"a b"`, not to the normalized original `"ab"`:
the fixed-width splitter inserts a whitespace marker in the middle of a word,
so the round trip does not reconstruct the source modulo whitespace. -/
theorem chunks_roundtrip_normalize_cex :
    normalizeWs ((split_text_to_chunks ['a', 'b'] 1 1).flatten)
      ≠ normalizeWs ['a', 'b'] := by
  rw [split_ab_eval]
  decide

/-- C1 (amended): for every text and positive `max_tokens` and `token_chars`,
concatenating in order the chunks returned by `split_text_to_chunks` and then
removing all whitespace from the result equals the original text with all
whitespace removed (the round trip preserves the non-whitespace content in
order; whitespace runs may be altered and inserted at chunk boundaries). -/
theorem chunks_flatten_stripAllWs (text : List Char) (max_tokens token_chars : Nat)
    (h1 : 0 < max_tokens) (h2 : 0 < token_chars) :
    stripAllWs (split_text_to_chunks text max_tokens token_chars).flatten
      = stripAllWs text :=
  chunksAux_flatten_strip (max_tokens * token_chars)
    (Nat.mul_ne_zero h1.ne' h2.ne') text

/-- Witness for the amended C1 at text `"ab"`, `max_tokens = 1`,
`token_chars = 1`. -/
theorem chunks_flatten_stripAllWs_witness :
    stripAllWs ((split_text_to_chunks ['a', 'b'] 1 1).flatten)
      = stripAllWs ['a', 'b'] :=
  chunks_flatten_stripAllWs ['a', 'b'] 1 1 (by decide) (by decide)

/-- C2: every chunk produced by `split_text_to_chunks`, measured after its
trailing whitespace is stripped and before the two-newline marker is
appended (the chunk is exactly such a stripped slice `w` followed by the
marker), has length at most `max_tokens * token_chars`. -/
theorem chunk_stripped_length_le (text : List Char) (max_tokens token_chars : Nat)
    (h1 : 0 < max_tokens) (h2 : 0 < token_chars) (c : List Char)
    (hc : c ∈ split_text_to_chunks text max_tokens token_chars) :
    ∃ w, c = w ++ ['\n', '\n'] ∧ w.length ≤ max_tokens * token_chars :=
  chunksAux_mem (max_tokens * token_chars) text c hc

/-- Witness for C2 at text `"ab"`, `max_tokens = 1`, `token_chars = 1`, on
its first chunk `"a\n\n"`. -/
theorem chunk_stripped_length_le_witness :
    ∃ w, (['a', '\n', '\n'] : List Char) = w ++ ['\n', '\n'] ∧ w.length ≤ 1 * 1 :=
  chunk_stripped_length_le ['a', 'b'] 1 1 (by decide) (by decide) ['a', '\n', '\n']
    (by rw [split_ab_eval]; decide)

/-- C3 counterexample: with `max_tokens = 1` and `token_chars = 1`, chunking
the text `"a"` returns the single chunk `"a\n\n"` of length 3, which exceeds
`max_tokens * token_chars = 1`: the chunk as returned, marker included, can
be longer than the budget. -/
theorem chunk_total_length_cex :
    split_text_to_chunks ['a'] 1 1 = [['a', '\n', '\n']]
  ∧ ¬ (∀ c ∈ split_text_to_chunks ['a'] 1 1, c.length ≤ 1 * 1) := by
  refine ⟨split_a_eval, ?_⟩
  rw [split_a_eval]
  decide

/-- C3 (amended): each chunk in the list returned by `split_text_to_chunks`,
including the appended two-newline marker, has length not exceeding
`max_tokens * token_chars + 2` (the budget plus the two marker characters). -/
theorem chunk_length_le_budget_add_marker (text : List Char)
    (max_tokens token_chars : Nat) (h1 : 0 < max_tokens) (h2 : 0 < token_chars)
    (c : List Char) (hc : c ∈ split_text_to_chunks text max_tokens token_chars) :
    c.length ≤ max_tokens * token_chars + 2 := by
  obtain ⟨w, hw, hlen⟩ := chunksAux_mem (max_tokens * token_chars) text c hc
  rw [hw, List.length_append]
  simp only [List.length_cons, List.length_nil]
  omega

/-- Witness for the amended C3 at text `"a"`, `max_tokens = 1`,
`token_chars = 1`. -/
theorem chunk_length_le_budget_add_marker_witness :
    (['a', '\n', '\n'] : List Char).length ≤ 1 * 1 + 2 :=
  chunk_length_le_budget_add_marker ['a'] 1 1 (by decide) (by decide)
    ['a', '\n', '\n'] (by rw [split_a_eval]; decide)

/-- C4: for every text, `cost_estimator` returns input cost
`(len / 4) / 1000000 * 0.5`, output cost `((words / 2) * 32) / 1000000 * 10`
and their sum as total; in particular on `"hello world"` it yields
`2.75 / 1e6 * 0.5`, `32 / 1e6 * 10`, and their sum. -/
theorem cost_estimator_fields (text : List Char) :
    (cost_estimator text).input = ((text.length : ℚ) / 4) / 1000000 * 0.5
  ∧ (cost_estimator text).output
      = ((((pySplit text).length : ℚ) / 2) * 32) / 1000000 * 10
  ∧ (cost_estimator text).total
      = (cost_estimator text).input + (cost_estimator text).output
  ∧ (cost_estimator hello_world).input = 2.75 / 1000000 * 0.5
  ∧ (cost_estimator hello_world).output = 32 / 1000000 * 10
  ∧ (cost_estimator hello_world).total
      = 2.75 / 1000000 * 0.5 + 32 / 1000000 * 10 := by
  have h11 : hello_world.length = 11 := by decide
  have hw2 : (pySplit hello_world).length = 2 := by decide
  refine ⟨?_, ?_, cost_total_eq text, ?_, ?_, ?_⟩
  · rw [cost_input_eq]; norm_num; ring
  · rw [cost_output_eq]; norm_num; ring
  · rw [cost_input_eq, h11]; norm_num
  · rw [cost_output_eq, hw2]; norm_num
  · rw [cost_total_eq, cost_input_eq, cost_output_eq, h11, hw2]; norm_num

/-- C5: `cost_estimator` is monotone: if `t1` is no longer than `t2` in
characters and has no more whitespace-delimited words, then each of the
input, output and total fields of its estimate is no larger. -/
theorem cost_estimator_monotone (t1 t2 : List Char)
    (hl : t1.length ≤ t2.length)
    (hw : (pySplit t1).length ≤ (pySplit t2).length) :
    (cost_estimator t1).input ≤ (cost_estimator t2).input
  ∧ (cost_estimator t1).output ≤ (cost_estimator t2).output
  ∧ (cost_estimator t1).total ≤ (cost_estimator t2).total := by
  have hlq : (t1.length : ℚ) ≤ (t2.length : ℚ) := by exact_mod_cast hl
  have hwq : ((pySplit t1).length : ℚ) ≤ ((pySplit t2).length : ℚ) := by
    exact_mod_cast hw
  have hi : (cost_estimator t1).input ≤ (cost_estimator t2).input := by
    rw [cost_input_eq, cost_input_eq]
    nlinarith
  have ho : (cost_estimator t1).output ≤ (cost_estimator t2).output := by
    rw [cost_output_eq, cost_output_eq]
    nlinarith
  refine ⟨hi, ho, ?_⟩
  rw [cost_total_eq, cost_total_eq]
  exact add_le_add hi ho

/-- Witness for C5 at `t1 = "a"`, `t2 = "a b"`. -/
theorem cost_estimator_monotone_witness :
    (cost_estimator ['a']).input ≤ (cost_estimator ['a', ' ', 'b']).input
  ∧ (cost_estimator ['a']).output ≤ (cost_estimator ['a', ' ', 'b']).output
  ∧ (cost_estimator ['a']).total ≤ (cost_estimator ['a', ' ', 'b']).total :=
  cost_estimator_monotone ['a'] ['a', ' ', 'b'] (by decide) (by decide)

/-- C6: the PCM data `save_mp3_file` assembles from an ordered list of
buffers is their byte-for-byte concatenation, and calling it on a single
buffer behaves identically to calling it on the one-element list holding
that buffer. -/
theorem save_mp3_assembles_concat :
    (∀ (bs : List (List Byte)) (fn : List Char) (ch r sw : Nat),
        (save_mp3_file fn (PcmArg.parts bs) ch r sw).segment.data = bs.flatten)
  ∧ (∀ (b : List Byte) (fn : List Char) (ch r sw : Nat),
        save_mp3_file fn (PcmArg.single b) ch r sw
          = save_mp3_file fn (PcmArg.parts [b]) ch r sw) := by
  constructor
  · intro bs fn ch r sw
    rfl
  · intro b fn ch r sw
    simp [save_mp3_file, assemblePcm]

/-- C7: chunking the empty text yields the empty list, for every
`max_tokens` and `token_chars`. -/
theorem split_empty_text (max_tokens token_chars : Nat) :
    split_text_to_chunks [] max_tokens token_chars = [] :=
  chunksAux_nil (max_tokens * token_chars)

/-- C8: chunking 30000 copies of `'a'` with `max_tokens = 7000` and
`token_chars = 4` yields exactly 2 chunks: the per-chunk limit is
`28000` characters, so the first chunk carries 28000 source characters and
the second the remaining 2000 (each followed by the two-newline marker). -/
theorem split_30000_a :
    split_text_to_chunks (List.replicate 30000 'a') 7000 4
      = [List.replicate 28000 'a' ++ ['\n', '\n'],
         List.replicate 2000 'a' ++ ['\n', '\n']]
  ∧ (split_text_to_chunks (List.replicate 30000 'a') 7000 4).length = 2 := by
  have h30 : List.replicate 30000 'a' = 'a' :: List.replicate 29999 'a' := by
    rw [show (30000 : Nat) = 29999 + 1 by norm_num, List.replicate_succ]
  have h2000 : List.replicate 2000 'a' = 'a' :: List.replicate 1999 'a' := by
    rw [show (2000 : Nat) = 1999 + 1 by norm_num, List.replicate_succ]
  have hmain : split_text_to_chunks (List.replicate 30000 'a') 7000 4
      = [List.replicate 28000 'a' ++ ['\n', '\n'],
         List.replicate 2000 'a' ++ ['\n', '\n']] := by
    show chunksAux (7000 * 4) (List.replicate 30000 'a') = _
    rw [show (7000 * 4 : Nat) = 28000 by norm_num, h30,
      chunksAux_cons 28000 (by norm_num), ← h30, List.take_replicate,
      List.drop_replicate,
      show (28000 : Nat) ⊓ 30000 = 28000 by omega,
      show (30000 - 28000 : Nat) = 2000 by norm_num,
      rstrip_replicate_a, h2000, chunksAux_cons 28000 (by norm_num), ← h2000,
      List.take_replicate, List.drop_replicate,
      show (28000 : Nat) ⊓ 2000 = 2000 by omega,
      show (2000 - 28000 : Nat) = 0 by norm_num,
      rstrip_replicate_a, List.replicate_zero, chunksAux_nil]
  exact ⟨hmain, by rw [hmain]; rfl⟩

/-- C9: the chunking loop terminates when `max_tokens * token_chars ≥ 1`:
each iteration consumes at least one character, so `length text` iterations
of fuel always suffice and the fuel-indexed loop model agrees with
`split_text_to_chunks`; conversely with `max_tokens * token_chars = 0` and a
non-empty text the loop never finishes, whatever the fuel. -/
theorem split_loop_termination (text : List Char) (max_tokens token_chars fuel : Nat) :
    (1 ≤ max_tokens * token_chars → text.length ≤ fuel →
      chunksFuel fuel (max_tokens * token_chars) text
        = some (split_text_to_chunks text max_tokens token_chars))
  ∧ (max_tokens * token_chars = 0 → text ≠ [] →
      chunksFuel fuel (max_tokens * token_chars) text = none) := by
  constructor
  · intro hm hf
    exact chunksFuel_complete fuel (max_tokens * token_chars) text hm hf
  · intro h0 hne
    cases text with
    | nil => exact absurd rfl hne
    | cons c cs =>
      rw [h0]
      exact chunksFuel_zero_stuck fuel c cs

/-- Witness for C9: the loop model finishes on `"ab"` with budget `1 * 1`
and fuel 2, and is stuck on `"a"` with budget `0 * 1` at fuel 5. -/
theorem split_loop_termination_witness :
    chunksFuel 2 (1 * 1) ['a', 'b'] = some (split_text_to_chunks ['a', 'b'] 1 1)
  ∧ chunksFuel 5 (0 * 1) ['a'] = none :=
  ⟨(split_loop_termination ['a', 'b'] 1 1 2).1 (by decide) (by decide),
   (split_loop_termination ['a'] 0 1 5).2 (by decide) (by decide)⟩

/-- C10: all three fields returned by `cost_estimator` are non-negative. -/
theorem cost_estimator_nonneg (text : List Char) :
    0 ≤ (cost_estimator text).input
  ∧ 0 ≤ (cost_estimator text).output
  ∧ 0 ≤ (cost_estimator text).total := by
  have hi : (0 : ℚ) ≤ (cost_estimator text).input := by
    rw [cost_input_eq]
    positivity
  have ho : (0 : ℚ) ≤ (cost_estimator text).output := by
    rw [cost_output_eq]
    positivity
  exact ⟨hi, ho, by rw [cost_total_eq]; exact add_nonneg hi ho⟩
